import Mathlib

/-!
Verification of the Resilient Field-Location & Fill-Orchestration Engine
(content script and background chain controller) against its design
specification.  The JavaScript source is shallowly embedded: pure string
functions become Lean functions on `String`/`List Char`, DOM-dependent
operations are abstracted behind explicit oracle records, machine numbers
become `Nat`/`Int` (JS arithmetic on these inputs is exact), and code that
may throw returns `Except`.
-/

namespace AutoFill

/-! ## JS string primitives (content.js helpers)

JS regex classes with no unicode flag: `\w` is `[A-Za-z0-9_]`, `\d` is
`[0-9]`, `\s` is ASCII whitespace plus a few unicode spaces (the ones
relevant to the modeled inputs are listed).  `String.prototype.toLowerCase`
is modeled on the ASCII range via `Char.toLower`. -/

def isWordChar (c : Char) : Bool :=
  c.isAlpha || c.isDigit || c = '_'

def isJsSpace (c : Char) : Bool :=
  c = ' ' || c = '\t' || c = '\n' || c = '\r' || c = '\x0b' || c = '\x0c' || c = ' '

/-- JS `str.toLowerCase()` (ASCII range). -/
def jsToLower (s : String) : String := ⟨s.data.map Char.toLower⟩

/-- JS `a.includes(b)`: `b` occurs as a contiguous substring of `a`. -/
def jsIncludes (s pattern : String) : Bool :=
  decide (pattern.data <:+: s.data)

/-- Characters kept by `replace(/[^\w\s]/g, '')`. -/
def keepChar (c : Char) : Bool := isWordChar c || isJsSpace c

/-- JS `replace(/\s+/g, ' ')`: collapse every run of whitespace to one space. -/
def collapseWs : List Char → List Char
  | [] => []
  | [c] => if isJsSpace c then [' '] else [c]
  | c₁ :: c₂ :: cs =>
    if isJsSpace c₁ then
      if isJsSpace c₂ then collapseWs (c₂ :: cs)
      else ' ' :: collapseWs (c₂ :: cs)
    else c₁ :: collapseWs (c₂ :: cs)

/-- JS `.trim()`: strip leading and trailing whitespace. -/
def trimWs (l : List Char) : List Char :=
  ((l.dropWhile isJsSpace).reverse.dropWhile isJsSpace).reverse

/-- The `normalize` closure inside `isFuzzyMatch` (content.js 1576-1579):
lower-case, strip characters outside `\w`/`\s`, collapse whitespace, trim. -/
def normalizeFuzzy (s : String) : String :=
  ⟨trimWs (collapseWs (((jsToLower s).data).filter keepChar))⟩

/-! ## Edit distance & similarity (content.js 1604-1649)

`levenshteinDistance` in the source fills a dynamic-programming matrix with
`matrix[i][j] = if str2[i-1] = str1[j-1] then matrix[i-1][j-1] else
min (diag+1) (left+1) (up+1)`, returning `matrix[str2.length][str1.length]`,
i.e. the memoized edit-distance recurrence on the two strings.  The
embedding is that recurrence in direct recursive form. -/

/-- Inner recursion of the edit-distance recurrence: computes the distance
from `x :: xs` to the second argument, given `tail = levenshteinDistance xs`
(the structural split makes every branch kernel-computable). -/
def levAux (x : Char) (xs : List Char) (tail : List Char → Nat) : List Char → Nat
  | [] => xs.length + 1
  | y :: ys =>
    if x = y then tail ys
    else
      min (tail ys + 1)
        (min (levAux x xs tail ys + 1) (tail (y :: ys) + 1))

def levenshteinDistance : List Char → List Char → Nat
  | [], ys => ys.length
  | x :: xs, ys => levAux x xs (levenshteinDistance xs) ys

/-- Source `calculateSimilarity` (content.js 1604-1615).  `Math.round` of the
non-negative exact ratio `((longer.length - distance) / longer.length) * 100`
is `⌊q + 1/2⌋`, i.e. `(2·a + b) / (2·b)` in `Nat` division; the distance
never exceeds `longer.length` (`levenshteinDistance_le_max` below), so the
`Nat` subtraction is exact. -/
def calculateSimilarity (str1 str2 : String) : Nat :=
  if str1 = str2 then 100
  else if str1.length = 0 ∨ str2.length = 0 then 0
  else
    let longer := if str2.length < str1.length then str1 else str2
    let shorter := if str2.length < str1.length then str2 else str1
    if longer.length = 0 then 100
    else
      (2 * ((longer.length - levenshteinDistance longer.data shorter.data) * 100)
          + longer.length) / (2 * longer.length)

/-- Source `isFuzzyMatch` (content.js 1572-1596).  Empty strings are falsy, so the
guard `if (!text1 || !text2) return false` rejects them; the final
similarity test is strict: `similarity > 80`. -/
def isFuzzyMatch (text1 text2 : String) : Bool :=
  if text1 = "" ∨ text2 = "" then false
  else
    let norm1 := normalizeFuzzy text1
    let norm2 := normalizeFuzzy text2
    if norm1 = norm2 then true
    else if jsIncludes norm1 norm2 || jsIncludes norm2 norm1 then true
    else decide (80 < calculateSimilarity norm1 norm2)

/-- The spec's characterization of `isFuzzyMatch`, amended where the code
differs: both inputs must be non-empty and the similarity test is strict
(`> 80`, not `≥ 80`). -/
def isFuzzyMatchSpec (a b : String) : Bool :=
  decide (a ≠ "") && decide (b ≠ "") &&
    (decide (normalizeFuzzy a = normalizeFuzzy b)
      || jsIncludes (normalizeFuzzy a) (normalizeFuzzy b)
      || jsIncludes (normalizeFuzzy b) (normalizeFuzzy a)
      || decide (80 < calculateSimilarity (normalizeFuzzy a) (normalizeFuzzy b)))

/-! ## Date format detection and conversion (content.js 596-713) -/

/-- One of the separators `.`, `/`, `-` that both the split regex
(character class `.`, `/`, `-`) and the three `includes` probes use. -/
def isDateSep (c : Char) : Prop := c = '.' ∨ c = '/' ∨ c = '-'

instance (c : Char) : Decidable (isDateSep c) := by
  unfold isDateSep; infer_instance

/-- The test `dateValue.includes('.') || dateValue.includes('/') || dateValue.includes('-')`. -/
def containsSep (s : String) : Prop :=
  '.' ∈ s.data ∨ '/' ∈ s.data ∨ '-' ∈ s.data

instance (s : String) : Decidable (containsSep s) := by
  unfold containsSep; infer_instance

/-- Worker for the split on separators: cut at every separator character. -/
def splitAux : List Char → List Char → List (List Char)
  | [], acc => [acc.reverse]
  | c :: cs, acc =>
    if isDateSep c then acc.reverse :: splitAux cs []
    else splitAux cs (c :: acc)

/-- The split `dateValue.split(sepRegex).filter(part => part.length > 0)`. -/
def splitDateParts (s : String) : List String :=
  ((splitAux s.data []).filter (fun l => !l.isEmpty)).map (fun l => ⟨l⟩)

/-- JS `parseInt` on the decimal inputs that can reach it here: skip leading
whitespace, optional sign, then leading decimal digits; `none` models `NaN`
(no digits).  Exotic `parseInt` forms (hex prefixes, huge floats) cannot
arise from the date-part strings this code feeds it. -/
def jsParseInt (s : String) : Option Int :=
  let t := s.data.dropWhile isJsSpace
  let signed : Int × List Char :=
    match t with
    | '-' :: rest => (-1, rest)
    | '+' :: rest => (1, rest)
    | _ => (1, t)
  let ds := signed.2.takeWhile Char.isDigit
  if ds.isEmpty then none
  else some (signed.1 * (ds.foldl (fun n c => 10 * n + (c.toNat - '0'.toNat)) 0 : Nat))

/-- The test `parseInt(part) > 12` — false when `parseInt` yields `NaN`. -/
def partGT12 (s : String) : Bool :=
  match jsParseInt s with
  | some n => decide (12 < n)
  | none => false

/-- JS `part.padStart(2, '0')`. -/
def jsPadStart2 (s : String) : String :=
  if s.length < 2 then ⟨List.replicate (2 - s.length) '0'⟩ ++ s else s

/-- JS `cleanDate.substring(a, b)` on a pure-digit string, as list slicing. -/
def jsSubstring (s : String) (a b : Nat) : String :=
  ⟨(s.data.drop a).take (b - a)⟩

/-- The parsing half of `formatDateForInput` (content.js 636-691), producing
the `(day, month, year)` strings, or `none` where the source returns `''`
(part count ≠ 3, or a separator-free input whose digit count is neither 8
nor 6).  Branches mirror the source: a part `> 12` is the day; otherwise a
`.` separator means day-first, a `/` (or `-`) means month-first. -/
def parseDMY (dateValue : String) : Option (String × String × String) :=
  let cleanDate : String := ⟨dateValue.data.filter Char.isDigit⟩
  if containsSep dateValue then
    match splitDateParts dateValue with
    | [p0, p1, p2] =>
      if partGT12 p0 then some (jsPadStart2 p0, jsPadStart2 p1, p2)
      else if partGT12 p1 then some (jsPadStart2 p1, jsPadStart2 p0, p2)
      else if '.' ∈ dateValue.data then some (jsPadStart2 p0, jsPadStart2 p1, p2)
      else some (jsPadStart2 p1, jsPadStart2 p0, p2)
    | _ => none
  else if cleanDate.length = 8 then
    some (jsSubstring cleanDate 0 2, jsSubstring cleanDate 2 4, jsSubstring cleanDate 4 8)
  else if cleanDate.length = 6 then
    some (jsSubstring cleanDate 0 2, jsSubstring cleanDate 2 4,
      "20" ++ jsSubstring cleanDate 4 6)
  else none

/-- The year normalization `if (year.length === 2) year = '20' + year`
(content.js 694-696). -/
def yearAdj (year : String) : String :=
  if year.length = 2 then "20" ++ year else year

/-- Source `formatDateForInput` (content.js 630-713): parse, force a 4-digit year,
reassemble per the target format tag (unknown tags fall back to `mdy`). -/
def formatDateForInput (dateValue formatType : String) : String :=
  if dateValue = "" then ""
  else
    match parseDMY dateValue with
    | none => ""
    | some (day, month, year0) =>
      let year := yearAdj year0
      match formatType with
      | "mdy" => month ++ "/" ++ day ++ "/" ++ year
      | "dmy" => day ++ "/" ++ month ++ "/" ++ year
      | "ymd" => year ++ "/" ++ month ++ "/" ++ day
      | "dmy_dot" => day ++ "." ++ month ++ "." ++ year
      | "dmy_dash" => day ++ "-" ++ month ++ "-" ++ year
      | _ => month ++ "/" ++ day ++ "/" ++ year

/-- Source `detectDateFormat` (content.js 600-622). -/
def detectDateFormat (placeholder : String) : String :=
  let ph := jsToLower placeholder
  if jsIncludes ph "m/d/y" || jsIncludes ph "mm/dd/y" then "mdy"
  else if jsIncludes ph "d/m/y" || jsIncludes ph "dd/mm/y" then "dmy"
  else if jsIncludes ph "y/m/d" || jsIncludes ph "yyyy/mm/dd" then "ymd"
  else if jsIncludes ph "d.m.y" || jsIncludes ph "dd.mm.y" then "dmy_dot"
  else if jsIncludes ph "d-m-y" || jsIncludes ph "dd-mm-y" then "dmy_dash"
  else "mdy"

/-! ## DOM element model and type-specific fillers (content.js 359-957)

An `Elem` carries the attributes the fillers consult.  Focus, clicks and
dispatched events do not change an element's `value`; the fillers' effect on
the model is the final value assignment (for `fillDateInput`, the state once
its scheduled callbacks have run).  `role` and absent attributes are `""`
(JS `getAttribute` returning `null` compares unequal to every tag, and empty
strings are falsy, exactly as `""` behaves below). -/

structure Elem where
  tagName : String
  elemType : String
  role : String
  placeholder : String
  id : String
  value : String
deriving Repr, DecidableEq

/-- FieldSpec from the data model (`fieldConfig` in the source; the source
property `type` is spelled `fieldType`). -/
structure FieldConfig where
  name : String
  fieldType : String
  value : String
  selector : Option String := none
deriving Repr, DecidableEq

/-- The date auto-detection in `fillFieldByType` (content.js 398-402);
`fieldType` is the already-lower-cased config type. -/
def isDateField (fieldType : String) (e : Elem) : Bool :=
  fieldType = "date"
    || (e.role = "combobox" && !(e.placeholder = "")
          && jsIncludes (jsToLower e.placeholder) "date")
    || (!(e.id = "") && jsIncludes (jsToLower e.id) "datepicker")

/-- Source `fillTextInput` (content.js 447-505): the native value setter writes the
supplied value verbatim; the event dispatches do not change it. -/
def fillTextInput (e : Elem) (value : String) : Elem × Bool :=
  ({ e with value := value }, true)

/-- Source `fillDateInput` (content.js 512-593): read the placeholder, detect the
format, convert, and (after the click/timeout sequence) assign the converted
date, falling back to the raw value when conversion returned `''`. -/
def fillDateInput (e : Elem) (value : String) : Elem × Bool :=
  let placeholder := e.placeholder
  let formatType := detectDateFormat placeholder
  let formattedDate := formatDateForInput value formatType
  let dateToInput := if formattedDate = "" then value else formattedDate
  ({ e with value := dateToInput }, true)

/-- Source `fillRadioButton` (content.js 720-743) searches the surrounding live
document for the option to check; the document is abstracted as an oracle. -/
structure DomOracle where
  fillRadio : Elem → String → Elem × Bool

/-- Source `fillFieldByType` (content.js 381-440): lower-case the declared type,
auto-detect date widgets, then dispatch.  `fillCheckbox` and `fillSelect`
are unimplemented in the source and return `false`; `clickButton` clicks
without touching the value and returns `true`; unknown types are treated as
text. -/
def fillFieldByType (dom : DomOracle) (e : Elem) (cfg : FieldConfig) : Elem × Bool :=
  let fieldType := jsToLower cfg.fieldType
  if isDateField fieldType e then fillDateInput e cfg.value
  else
    match fieldType with
    | "text" | "email" | "phone" | "number" | "textarea" => fillTextInput e cfg.value
    | "date" => fillDateInput e cfg.value
    | "radio" => dom.fillRadio e cfg.value
    | "checkbox" => (e, false)
    | "select" => (e, false)
    | "button" => (e, true)
    | _ => fillTextInput e cfg.value

/-! ## Fill orchestrator (content.js 68-176)

`findFieldElement` evaluates XPath cascades against the live document and
`fillFieldByType` touches live widgets; for the orchestration claims both
are abstracted as an environment whose operations may also throw
(`Except.error` models a raised exception). -/

structure FieldEnv where
  find : FieldConfig → Except String (Option Elem)
  fill : Elem → FieldConfig → Except String Bool

/-- Per-field outcome of `fillSingleField` before the orchestrator wraps it. -/
inductive SingleResult where
  | ok (element : Elem)
  | failed (error : String)
deriving Repr, DecidableEq

/-- Source `fillSingleField` (content.js 153-176).  The try/catch at the field
boundary converts any exception from resolution or filling into a failure
result instead of propagating it. -/
def fillSingleField (env : FieldEnv) (cfg : FieldConfig) : SingleResult :=
  match env.find cfg with
  | Except.error msg => SingleResult.failed msg
  | Except.ok none =>
    SingleResult.failed ("Element not found for field: " ++ cfg.name)
  | Except.ok (some el) =>
    match env.fill el cfg with
    | Except.error msg => SingleResult.failed msg
    | Except.ok true => SingleResult.ok el
    | Except.ok false =>
      SingleResult.failed ("Failed to fill field: " ++ cfg.name)

/-- Per-field record pushed onto `results` (content.js 90-104). -/
structure FillResult where
  field : String
  success : Bool
  error : Option String
  value : String
deriving Repr, DecidableEq

/-- The `results.push` entry built for one field. -/
def fillResultOf (env : FieldEnv) (cfg : FieldConfig) : FillResult :=
  match fillSingleField env cfg with
  | SingleResult.ok _ => ⟨cfg.name, true, none, cfg.value⟩
  | SingleResult.failed e => ⟨cfg.name, false, some e, cfg.value⟩

/-- The object returned by the content script's `fillFormWithProfile`
(content.js 141-146). -/
structure FillReport where
  success : Bool
  filled : Nat
  total : Nat
  results : List FillResult
deriving Repr, DecidableEq

/-- Profile from the data model; the background script reads `id` and
`nextProfileId`, the content script reads `fields`. -/
structure Profile where
  id : String
  name : String
  fields : List FieldConfig
  nextProfileId : Option String := none
deriving Repr, DecidableEq

/-- Content-script `fillFormWithProfile` (content.js 68-147): process every
field in declared order, count successes (`fieldsFound` ends up as the field
count, `fieldsFilled` as the success count), and report
`success = fieldsFilled > 0`. -/
def fillFormWithProfile (env : FieldEnv) (profile : Profile) : FillReport :=
  let results := profile.fields.map (fillResultOf env)
  let fieldsFilled := (results.filter (fun r => r.success)).length
  let fieldsFound := profile.fields.length
  { success := decide (0 < fieldsFilled)
    filled := fieldsFilled
    total := fieldsFound
    results := results }

/-- The guard `if (fieldsFilled > 0) setTimeout(clickNextButton)` on
content.js 135-139: whether the Next-button click is scheduled. -/
def nextButtonScheduled (env : FieldEnv) (profile : Profile) : Bool :=
  decide (0 < (fillFormWithProfile env profile).filled)

/-! ## Content-script message dispatch (content.js 23-62)

The listener switches on `request.action` and, for a fill request, runs
`fillFormWithProfile` unconditionally — the handler consults no
fill-in-progress state of any kind. -/

inductive Request where
  | fillFormAdvanced (profile : Profile)
  | detectFields
  | other (action : String)
deriving Repr

inductive Response where
  | report (r : FillReport)
  | fieldsDetected
  | failure (error : String)
deriving Repr, DecidableEq

def handleMessage (env : FieldEnv) (req : Request) : Response :=
  match req with
  | Request.fillFormAdvanced p => Response.report (fillFormWithProfile env p)
  | Request.detectFields => Response.fieldsDetected
  | Request.other _ => Response.failure "Unknown action"

/-- Messages are dispatched one after another by the single-threaded event
loop; each is handled to completion, none is dropped. -/
def handleMessages (env : FieldEnv) (reqs : List Request) : List Response :=
  reqs.map (handleMessage env)

/-! ## Chain controller (background.js 237-301)

`chrome.tabs.sendMessage` and the content script's answer are abstracted as
`respond : String → Bool` (the `response.success` seen for a profile id).
The function returns the sequence of profile ids actually executed (a
`sendMessage` fill was issued for each) and how the chain ended.  The
`visited` set is copied (`new Set(chainContext.visited)`) into each
continuation, modeled by consing onto an immutable list. -/

structure ChainContext where
  visited : List String
  depth : Nat
deriving Repr, DecidableEq

inductive ChainOutcome where
  | notFound
  | circular
  | tooLong
  | done
deriving Repr, DecidableEq

/-- Source `this.profiles.find(p => p.id === profileId)`. -/
def findProfile (ps : List Profile) (profileId : String) : Option Profile :=
  ps.find? (fun p => p.id == profileId)

/-- Source `AutoFillBackground.fillFormWithProfile` (background.js 237-301): bail
out on a missing profile; abort on a visited id (circular) or on
`depth >= 10` (too long); otherwise record the id as visited, execute the
fill, and continue to `nextProfileId` only when the response succeeded and a
successor is declared (the recursion the `setTimeout` continuation performs). -/
def chainRun (ps : List Profile) (respond : String → Bool) (profileId : String)
    (ctx : ChainContext) : List String × ChainOutcome :=
  match findProfile ps profileId with
  | none => ([], ChainOutcome.notFound)
  | some p =>
    if profileId ∈ ctx.visited then ([], ChainOutcome.circular)
    else if _h : 10 ≤ ctx.depth then ([], ChainOutcome.tooLong)
    else
      match p.nextProfileId, respond profileId with
      | some nid, true =>
        let rest := chainRun ps respond nid
          ⟨profileId :: ctx.visited, ctx.depth + 1⟩
        (profileId :: rest.1, rest.2)
      | some _, false => ([profileId], ChainOutcome.done)
      | none, _ => ([profileId], ChainOutcome.done)
termination_by 10 - ctx.depth
decreasing_by omega

/-- The profile graph that is a single cycle of length `k`:
profile `ids i` points at `ids ((i+1) % k)`. -/
def cycleProfiles (k : Nat) (ids : Nat → String) : List Profile :=
  (List.range k).map (fun i =>
    { id := ids i
      name := ids i
      fields := []
      nextProfileId := some (ids ((i + 1) % k)) })

/-! ## Demonstration constants used by witnesses and counterexamples -/

/-- Radio search oracle that finds nothing (never consulted below). -/
def noopDom : DomOracle := ⟨fun e _ => (e, false)⟩

/-- A plain visible text input. -/
def plainElem : Elem := ⟨"INPUT", "text", "", "", "", ""⟩

/-- A text input whose id marks it as a date picker widget. -/
def dateAutoElem : Elem := ⟨"INPUT", "text", "", "", "birthDatePicker", ""⟩

/-- A date combobox whose placeholder advertises day/month/year order. -/
def ddmmElem : Elem := ⟨"INPUT", "text", "combobox", "(dd/mm/yyyy)", "", ""⟩

/-- Environment in which every field resolves and fills. -/
def demoEnv : FieldEnv :=
  ⟨fun _ => Except.ok (some plainElem), fun _ _ => Except.ok true⟩

def demoProfile : Profile :=
  ⟨"P1", "Demo", [⟨"Email", "text", "a@b.com", none⟩], none⟩

def demoReport : FillReport :=
  ⟨true, 1, 1, [⟨"Email", true, none, "a@b.com"⟩]⟩

/-- Environment whose resolver throws for the field named `Boom` and finds
no element for `Nonexistent`. -/
def faultEnv : FieldEnv :=
  ⟨fun cfg =>
      if cfg.name = "Boom" then Except.error "boom"
      else if cfg.name = "Nonexistent" then Except.ok none
      else Except.ok (some plainElem),
    fun _ _ => Except.ok true⟩

def faultProfile : Profile :=
  ⟨"P2", "Faulty",
    [⟨"Boom", "text", "x", none⟩, ⟨"Email", "text", "a@b.com", none⟩], none⟩

/-- Two distinct profile ids for the concrete two-cycle. -/
def demoIds (i : Nat) : String := if i = 0 then "A" else "B"

/-- A single profile that declares a successor that is never run. -/
def soloProfile : Profile := ⟨"A", "A", [], some "B"⟩

/-! # Theorems -/

/-! ## Edit distance: recurrence, symmetry, and the length bound -/

theorem lev_nil_left (ys : List Char) : levenshteinDistance [] ys = ys.length := rfl

theorem lev_nil_right (xs : List Char) : levenshteinDistance xs [] = xs.length := by
  cases xs <;> rfl

theorem lev_cons_cons (x y : Char) (xs ys : List Char) :
    levenshteinDistance (x :: xs) (y :: ys) =
      if x = y then levenshteinDistance xs ys
      else
        min (levenshteinDistance xs ys + 1)
          (min (levenshteinDistance (x :: xs) ys + 1)
            (levenshteinDistance xs (y :: ys) + 1)) := rfl

theorem lev_comm_fuel :
    ∀ (n : Nat) (xs ys : List Char), xs.length + ys.length ≤ n →
      levenshteinDistance xs ys = levenshteinDistance ys xs := by
  intro n
  induction n with
  | zero =>
    intro xs ys h
    cases xs with
    | nil =>
      cases ys with
      | nil => rfl
      | cons y ys => simp only [List.length_nil, List.length_cons] at h; omega
    | cons x xs => simp only [List.length_cons] at h; omega
  | succ n ih =>
    intro xs ys h
    cases xs with
    | nil => rw [lev_nil_left, lev_nil_right]
    | cons x xs =>
      cases ys with
      | nil => rw [lev_nil_left, lev_nil_right]
      | cons y ys =>
        simp only [List.length_cons] at h
        rw [lev_cons_cons, lev_cons_cons]
        by_cases hxy : x = y
        · rw [if_pos hxy, if_pos hxy.symm, ih xs ys (by omega)]
        · rw [if_neg hxy, if_neg (fun hc => hxy hc.symm),
            ih xs ys (by omega),
            ih (x :: xs) ys (by simp only [List.length_cons]; omega),
            ih xs (y :: ys) (by simp only [List.length_cons]; omega),
            Nat.min_comm (levenshteinDistance ys (x :: xs) + 1)
              (levenshteinDistance (y :: ys) xs + 1)]

theorem levenshteinDistance_comm (xs ys : List Char) :
    levenshteinDistance xs ys = levenshteinDistance ys xs :=
  lev_comm_fuel (xs.length + ys.length) xs ys (Nat.le_refl _)

/-- The edit distance never exceeds the longer length, so the `Nat`
subtraction in `calculateSimilarity` is exact (matches the JS float
arithmetic, which never goes negative). -/
theorem levenshteinDistance_le_max :
    ∀ (n : Nat) (xs ys : List Char), xs.length + ys.length ≤ n →
      levenshteinDistance xs ys ≤ max xs.length ys.length := by
  intro n
  induction n with
  | zero =>
    intro xs ys h
    cases xs with
    | nil =>
      cases ys with
      | nil => exact Nat.le_refl _
      | cons y ys => simp only [List.length_nil, List.length_cons] at h; omega
    | cons x xs => simp only [List.length_cons] at h; omega
  | succ n ih =>
    intro xs ys h
    cases xs with
    | nil => rw [lev_nil_left]; exact Nat.le_max_right _ _
    | cons x xs =>
      cases ys with
      | nil => rw [lev_nil_right]; exact Nat.le_max_left _ _
      | cons y ys =>
        simp only [List.length_cons] at h
        rw [lev_cons_cons]
        by_cases hxy : x = y
        · rw [if_pos hxy]
          have h1 := ih xs ys (by omega)
          simp only [List.length_cons]
          omega
        · rw [if_neg hxy]
          have h1 := ih xs ys (by omega)
          have h2 :
              min (levenshteinDistance xs ys + 1)
                (min (levenshteinDistance (x :: xs) ys + 1)
                  (levenshteinDistance xs (y :: ys) + 1)) ≤
                levenshteinDistance xs ys + 1 :=
            Nat.min_le_left _ _
          simp only [List.length_cons]
          omega

/-! ## Similarity lemmas -/

theorem calculateSimilarity_self (x : String) : calculateSimilarity x x = 100 := by
  unfold calculateSimilarity
  rw [if_pos rfl]

theorem roundDiv_le_100 (L d : Nat) (hL : 0 < L) :
    (2 * ((L - d) * 100) + L) / (2 * L) ≤ 100 := by
  have hlt : 2 * ((L - d) * 100) + L < 101 * (2 * L) := by
    have : L - d ≤ L := Nat.sub_le L d
    omega
  have := (Nat.div_lt_iff_lt_mul (by omega : 0 < 2 * L)).mpr hlt
  omega

theorem calculateSimilarity_le_100 (x y : String) : calculateSimilarity x y ≤ 100 := by
  unfold calculateSimilarity
  by_cases hxy : x = y
  · rw [if_pos hxy]
  · rw [if_neg hxy]
    by_cases h0 : x.length = 0 ∨ y.length = 0
    · rw [if_pos h0]; omega
    · rw [if_neg h0]
      push_neg at h0
      by_cases hlen : y.length < x.length
      · simp only [if_pos hlen]
        rw [if_neg (by omega : ¬ x.length = 0)]
        exact roundDiv_le_100 _ _ (by omega)
      · simp only [if_neg hlen]
        rw [if_neg (by omega : ¬ y.length = 0)]
        exact roundDiv_le_100 _ _ (by omega)

theorem calculateSimilarity_comm (x y : String) :
    calculateSimilarity x y = calculateSimilarity y x := by
  by_cases hxy : x = y
  · subst hxy; rfl
  · unfold calculateSimilarity
    rw [if_neg hxy, if_neg (Ne.symm hxy)]
    by_cases h0 : x.length = 0 ∨ y.length = 0
    · rw [if_pos h0, if_pos (Or.symm h0)]
    · rw [if_neg h0, if_neg (fun hc => h0 (Or.symm hc))]
      rcases Nat.lt_trichotomy y.length x.length with hlt | heq | hgt
      · simp only [if_pos hlt, if_neg (Nat.lt_asymm hlt)]
      · have h1 : ¬ y.length < x.length := by omega
        have h2 : ¬ x.length < y.length := by omega
        simp only [if_neg h1, if_neg h2]
        rw [heq, levenshteinDistance_comm y.data x.data]
      · simp only [if_pos hgt, if_neg (Nat.lt_asymm hgt)]

theorem calculateSimilarity_empty (x y : String)
    (h : (x = "" ∧ y ≠ "") ∨ (x ≠ "" ∧ y = "")) : calculateSimilarity x y = 0 := by
  have hne : x ≠ y := by
    rcases h with ⟨hx, hy⟩ | ⟨hx, hy⟩
    · subst hx; exact fun he => hy he.symm
    · subst hy; exact hx
  have hlen : x.length = 0 ∨ y.length = 0 := by
    rcases h with ⟨hx, _⟩ | ⟨_, hy⟩
    · left; subst hx; rfl
    · right; subst hy; rfl
  unfold calculateSimilarity
  rw [if_neg hne, if_pos hlen]

/-- C8: `calculateSimilarity` scores identical non-empty strings 100, is
symmetric, scores an empty string against a non-empty one 0, and always
stays within `[0, 100]`. -/
theorem c8_similarity_properties (x y : String) :
    (x ≠ "" → calculateSimilarity x x = 100) ∧
    calculateSimilarity x y = calculateSimilarity y x ∧
    ((x = "" ∧ y ≠ "") ∨ (x ≠ "" ∧ y = "") → calculateSimilarity x y = 0) ∧
    calculateSimilarity x y ≤ 100 :=
  ⟨fun _ => calculateSimilarity_self x, calculateSimilarity_comm x y,
    calculateSimilarity_empty x y, calculateSimilarity_le_100 x y⟩

/-- Witness for C8 at `x = "ab"`, `y = ""`. -/
theorem c8_similarity_properties_witness :
    calculateSimilarity "ab" "ab" = 100 ∧ calculateSimilarity "ab" "" = 0 :=
  ⟨(c8_similarity_properties "ab" "").1 (by decide),
    (c8_similarity_properties "ab" "").2.2.1 (Or.inr ⟨by decide, rfl⟩)⟩

/-! ## Chain controller: one-step unfolding lemmas -/

theorem chainRun_not_found (ps : List Profile) (respond : String → Bool)
    (pid : String) (ctx : ChainContext) (hfind : findProfile ps pid = none) :
    chainRun ps respond pid ctx = ([], ChainOutcome.notFound) := by
  rw [chainRun.eq_def, hfind]

theorem chainRun_circular (ps : List Profile) (respond : String → Bool)
    (pid : String) (ctx : ChainContext) (pr : Profile)
    (hfind : findProfile ps pid = some pr) (hvis : pid ∈ ctx.visited) :
    chainRun ps respond pid ctx = ([], ChainOutcome.circular) := by
  rw [chainRun.eq_def, hfind]
  simp [hvis]

theorem chainRun_too_long (ps : List Profile) (respond : String → Bool)
    (pid : String) (ctx : ChainContext) (pr : Profile)
    (hfind : findProfile ps pid = some pr) (hvis : pid ∉ ctx.visited)
    (hdep : 10 ≤ ctx.depth) :
    chainRun ps respond pid ctx = ([], ChainOutcome.tooLong) := by
  rw [chainRun.eq_def, hfind]
  simp [hvis, hdep]

theorem chainRun_no_next (ps : List Profile) (respond : String → Bool)
    (pid : String) (ctx : ChainContext) (pr : Profile)
    (hfind : findProfile ps pid = some pr) (hvis : pid ∉ ctx.visited)
    (hdep : ctx.depth < 10) (hnext : pr.nextProfileId = none) :
    chainRun ps respond pid ctx = ([pid], ChainOutcome.done) := by
  rw [chainRun.eq_def, hfind]
  simp [hvis, hnext, Nat.not_le.mpr hdep]

theorem chainRun_stop (ps : List Profile) (respond : String → Bool)
    (pid : String) (ctx : ChainContext) (pr : Profile) (nid : String)
    (hfind : findProfile ps pid = some pr) (hvis : pid ∉ ctx.visited)
    (hdep : ctx.depth < 10) (hnext : pr.nextProfileId = some nid)
    (hresp : respond pid = false) :
    chainRun ps respond pid ctx = ([pid], ChainOutcome.done) := by
  rw [chainRun.eq_def, hfind]
  simp [hvis, hnext, hresp, Nat.not_le.mpr hdep]

theorem chainRun_continue (ps : List Profile) (respond : String → Bool)
    (pid : String) (ctx : ChainContext) (pr : Profile) (nid : String)
    (hfind : findProfile ps pid = some pr) (hvis : pid ∉ ctx.visited)
    (hdep : ctx.depth < 10) (hnext : pr.nextProfileId = some nid)
    (hresp : respond pid = true) :
    chainRun ps respond pid ctx
      = (pid :: (chainRun ps respond nid ⟨pid :: ctx.visited, ctx.depth + 1⟩).1,
          (chainRun ps respond nid ⟨pid :: ctx.visited, ctx.depth + 1⟩).2) := by
  rw [chainRun.eq_def, hfind]
  simp [hvis, hnext, hresp, Nat.not_le.mpr hdep]

/-! ## Chain controller: invariants of every run -/

/-- Every id executed by a chain is fresh (not yet visited), the executed
trace has no duplicates, and its length is bounded by the remaining depth
budget. -/
theorem chainRun_inv :
    ∀ (fuel : Nat) (ps : List Profile) (respond : String → Bool)
      (pid : String) (ctx : ChainContext), 10 - ctx.depth ≤ fuel →
      ((chainRun ps respond pid ctx).1).Nodup ∧
      (∀ x ∈ (chainRun ps respond pid ctx).1, x ∉ ctx.visited) ∧
      (chainRun ps respond pid ctx).1.length ≤ 10 - ctx.depth := by
  intro fuel
  induction fuel with
  | zero =>
    intro ps respond pid ctx hf
    cases hfind : findProfile ps pid with
    | none => rw [chainRun_not_found ps respond pid ctx hfind]; simp
    | some pr =>
      by_cases hvis : pid ∈ ctx.visited
      · rw [chainRun_circular ps respond pid ctx pr hfind hvis]; simp
      · rw [chainRun_too_long ps respond pid ctx pr hfind hvis (by omega)]; simp
  | succ fuel ih =>
    intro ps respond pid ctx hf
    cases hfind : findProfile ps pid with
    | none => rw [chainRun_not_found ps respond pid ctx hfind]; simp
    | some pr =>
      by_cases hvis : pid ∈ ctx.visited
      · rw [chainRun_circular ps respond pid ctx pr hfind hvis]; simp
      · by_cases hdep : 10 ≤ ctx.depth
        · rw [chainRun_too_long ps respond pid ctx pr hfind hvis hdep]; simp
        · have hdep' : ctx.depth < 10 := by omega
          cases hnext : pr.nextProfileId with
          | none =>
            rw [chainRun_no_next ps respond pid ctx pr hfind hvis hdep' hnext]
            refine ⟨by simp, ?_, by simp; omega⟩
            intro x hx
            simp only [List.mem_singleton] at hx
            subst hx; exact hvis
          | some nid =>
            cases hresp : respond pid with
            | false =>
              rw [chainRun_stop ps respond pid ctx pr nid hfind hvis hdep' hnext hresp]
              refine ⟨by simp, ?_, by simp; omega⟩
              intro x hx
              simp only [List.mem_singleton] at hx
              subst hx; exact hvis
            | true =>
              rw [chainRun_continue ps respond pid ctx pr nid hfind hvis hdep' hnext hresp]
              have ihh := ih ps respond nid ⟨pid :: ctx.visited, ctx.depth + 1⟩
                (by show 10 - (ctx.depth + 1) ≤ fuel; omega)
              obtain ⟨hnd, hfresh, hlen⟩ := ihh
              refine ⟨?_, ?_, ?_⟩
              · refine List.nodup_cons.mpr ⟨?_, hnd⟩
                intro hmem
                exact hfresh pid hmem (List.mem_cons_self _ _)
              · intro x hx
                rcases List.mem_cons.mp hx with rfl | hx'
                · exact hvis
                · have := hfresh x hx'
                  intro hxv
                  exact this (List.mem_cons_of_mem _ hxv)
              · have hlen' : (chainRun ps respond nid
                    ⟨pid :: ctx.visited, ctx.depth + 1⟩).1.length
                      ≤ 10 - (ctx.depth + 1) := hlen
                simp only [List.length_cons]
                omega

/-! ## Chain controller: exact behaviour on a pure cycle -/

theorem findProfile_cycle_aux :
    ∀ (idxs : List Nat) (k : Nat) (ids : Nat → String) (j : Nat),
      j ∈ idxs → (∀ i ∈ idxs, ids i = ids j → i = j) →
      ((idxs.map (fun i =>
          ({ id := ids i, name := ids i, fields := [],
             nextProfileId := some (ids ((i + 1) % k)) } : Profile))).find?
          (fun p => p.id == ids j))
        = some { id := ids j, name := ids j, fields := [],
                 nextProfileId := some (ids ((j + 1) % k)) } := by
  intro idxs
  induction idxs with
  | nil => intro k ids j hmem; simp at hmem
  | cons a rest ih =>
    intro k ids j hmem hinj
    by_cases haj : ids a = ids j
    · have haj' : a = j := hinj a (List.mem_cons_self _ _) haj
      subst haj'
      simp [List.find?]
    · have hne : (ids a == ids j) = false := by
        simp only [beq_eq_false_iff_ne, ne_eq]; exact haj
      have hmem' : j ∈ rest := by
        rcases List.mem_cons.mp hmem with rfl | h
        · exact absurd rfl haj
        · exact h
      simp only [List.map_cons, List.find?, hne]
      exact ih k ids j hmem' (fun i hi => hinj i (List.mem_cons_of_mem _ hi))

theorem findProfile_cycle (k : Nat) (ids : Nat → String)
    (hinj : ∀ i j, i < k → j < k → ids i = ids j → i = j)
    (j : Nat) (hj : j < k) :
    findProfile (cycleProfiles k ids) (ids j)
      = some { id := ids j, name := ids j, fields := [],
               nextProfileId := some (ids ((j + 1) % k)) } := by
  unfold findProfile cycleProfiles
  exact findProfile_cycle_aux (List.range k) k ids j (List.mem_range.mpr hj)
    (fun i hi => hinj i j (List.mem_range.mp hi) hj)

theorem cycle_visited_fresh (k : Nat) (ids : Nat → String)
    (hinj : ∀ i j, i < k → j < k → ids i = ids j → i = j)
    (j : Nat) (hj : j < k) :
    ids j ∉ ((List.range j).reverse).map ids := by
  intro hmem
  rcases List.mem_map.mp hmem with ⟨i, hi, hieq⟩
  have hij : i < j := List.mem_range.mp (List.mem_reverse.mp hi)
  have := hinj i j (by omega) hj hieq
  omega

theorem cycle_run_from (k : Nat) (ids : Nat → String) (hk : 0 < k) (hk10 : k ≤ 10)
    (hinj : ∀ i j, i < k → j < k → ids i = ids j → i = j) :
    ∀ (n j : Nat), j ≤ k → k - j = n →
      chainRun (cycleProfiles k ids) (fun _ => true) (ids (j % k))
          ⟨((List.range j).reverse).map ids, j⟩
        = ((List.range' j (k - j)).map ids, ChainOutcome.circular) := by
  intro n
  induction n with
  | zero =>
    intro j hj hn
    have hjk : j = k := by omega
    rw [hjk, Nat.mod_self, Nat.sub_self]
    have hmem : ids 0 ∈ ((List.range k).reverse).map ids :=
      List.mem_map.mpr ⟨0, List.mem_reverse.mpr (List.mem_range.mpr hk), rfl⟩
    rw [chainRun_circular _ _ _ _ _ (findProfile_cycle k ids hinj 0 hk) hmem]
    simp
  | succ n ih =>
    intro j hj hn
    have hjk : j < k := by omega
    rw [Nat.mod_eq_of_lt hjk]
    rw [chainRun_continue _ _ _ _ _ (ids ((j + 1) % k))
      (findProfile_cycle k ids hinj j hjk)
      (cycle_visited_fresh k ids hinj j hjk)
      (by show j < 10; omega) rfl rfl]
    have hvis : (ids j :: ((List.range j).reverse).map ids)
        = ((List.range (j + 1)).reverse).map ids := by
      rw [List.range_succ, List.reverse_append]
      simp
    have ihh := ih (j + 1) (by omega) (by omega)
    rw [show (⟨ids j :: ((List.range j).reverse).map ids, j + 1⟩ : ChainContext)
        = ⟨((List.range (j + 1)).reverse).map ids, j + 1⟩ from by rw [hvis]]
    rw [ihh]
    have hr : List.range' j (k - j) = j :: List.range' (j + 1) (k - (j + 1)) := by
      rw [show k - j = (k - (j + 1)) + 1 from by omega]
      rfl
    rw [hr]
    simp

/-- C1: chain execution never executes a profile id twice; a fresh chain
performs at most 10 executions; and on a pure cycle of length `k ≤ 10` with
succeeding fills it executes each of the `k` profiles exactly once and then
ends with the circular-chain outcome on hop `k + 1`. -/
theorem c1_chain_protection :
    (∀ (ps : List Profile) (respond : String → Bool) (pid : String),
      ((chainRun ps respond pid ⟨[], 0⟩).1).Nodup) ∧
    (∀ (ps : List Profile) (respond : String → Bool) (pid : String),
      (chainRun ps respond pid ⟨[], 0⟩).1.length ≤ 10) ∧
    (∀ (k : Nat) (ids : Nat → String), 0 < k → k ≤ 10 →
      (∀ i j, i < k → j < k → ids i = ids j → i = j) →
      (chainRun (cycleProfiles k ids) (fun _ => true) (ids 0) ⟨[], 0⟩).1
          = (List.range k).map ids ∧
      (chainRun (cycleProfiles k ids) (fun _ => true) (ids 0) ⟨[], 0⟩).2
          = ChainOutcome.circular) := by
  refine ⟨?_, ?_, ?_⟩
  · intro ps respond pid
    exact (chainRun_inv 10 ps respond pid ⟨[], 0⟩ (by omega)).1
  · intro ps respond pid
    exact (chainRun_inv 10 ps respond pid ⟨[], 0⟩ (by omega)).2.2
  · intro k ids hk hk10 hinj
    have h0 := cycle_run_from k ids hk hk10 hinj k 0 (by omega) (by omega)
    have hz : (0 : Nat) % k = 0 := Nat.zero_mod k
    rw [hz] at h0
    simp only [List.range_zero, List.reverse_nil, List.map_nil, Nat.sub_zero] at h0
    rw [← List.range_eq_range'] at h0
    exact ⟨congrArg Prod.fst h0, congrArg Prod.snd h0⟩

/-- Witness for C1: the two-profile cycle `A → B → A` executes `A` then `B`
exactly once each and aborts as circular. -/
theorem c1_chain_protection_witness :
    (chainRun (cycleProfiles 2 demoIds) (fun _ => true) (demoIds 0) ⟨[], 0⟩).1
        = ["A", "B"] ∧
    (chainRun (cycleProfiles 2 demoIds) (fun _ => true) (demoIds 0) ⟨[], 0⟩).2
        = ChainOutcome.circular := by
  have h := c1_chain_protection.2.2 2 demoIds (by omega) (by omega)
    (by
      intro i j hi hj hij
      interval_cases i <;> interval_cases j <;> simp_all [demoIds])
  obtain ⟨h1, h2⟩ := h
  refine ⟨?_, h2⟩
  rw [h1]
  decide

/-! ## Orchestrator report invariants and fault isolation -/

/-- C2: every field of the profile is attempted in order — the report has
one result per field, in field order — and a fault in resolution or filling
(an exception from the resolver, or no element found) only makes that
field's result unsuccessful; it never stops the remaining fields. -/
theorem c2_field_fault_isolation (env : FieldEnv) (p : Profile) :
    (fillFormWithProfile env p).results.length = p.fields.length ∧
    ∀ i (hi : i < p.fields.length)
      (hr : i < (fillFormWithProfile env p).results.length),
      (fillFormWithProfile env p).results.get ⟨i, hr⟩
          = fillResultOf env (p.fields.get ⟨i, hi⟩) ∧
      ((∃ msg, env.find (p.fields.get ⟨i, hi⟩) = Except.error msg) ∨
          env.find (p.fields.get ⟨i, hi⟩) = Except.ok none →
        ((fillFormWithProfile env p).results.get ⟨i, hr⟩).success = false) := by
  have hres : (fillFormWithProfile env p).results
      = p.fields.map (fillResultOf env) := rfl
  constructor
  · rw [hres, List.length_map]
  · intro i hi hr
    have hget : (fillFormWithProfile env p).results.get ⟨i, hr⟩
        = fillResultOf env (p.fields.get ⟨i, hi⟩) := by
      simp [hres, List.get_eq_getElem, List.getElem_map]
    refine ⟨hget, ?_⟩
    intro hfault
    rw [hget]
    rcases hfault with ⟨msg, hmsg⟩ | hnone
    · rw [List.get_eq_getElem] at hmsg
      simp [fillResultOf, fillSingleField, hmsg]
    · rw [List.get_eq_getElem] at hnone
      simp [fillResultOf, fillSingleField, hnone]

/-- Witness for C2: in `faultEnv` the resolver throws for the first field of
`faultProfile`; its result is recorded as unsuccessful (and, per the length
conjunct, the second field still has a result). -/
theorem c2_field_fault_isolation_witness :
    ((fillFormWithProfile faultEnv faultProfile).results.get
        ⟨0, by decide⟩).success = false :=
  ((c2_field_fault_isolation faultEnv faultProfile).2 0 (by decide)
      (by decide)).2 (Or.inl ⟨"boom", rfl⟩)

/-- C10: report invariants — `total` is the field count, `results` has one
entry per field in order, `filled` counts the successful results (so
`filled ≤ total`), `success` holds exactly when `filled > 0`, the
Next-button click is scheduled exactly under `success`, and in the chain
controller a successor is scheduled exactly when the response succeeded and
a successor is declared. -/
theorem c10_report_and_gating (env : FieldEnv) (p : Profile) :
    (fillFormWithProfile env p).total = p.fields.length ∧
    (fillFormWithProfile env p).results.length = (fillFormWithProfile env p).total ∧
    (fillFormWithProfile env p).results = p.fields.map (fillResultOf env) ∧
    (fillFormWithProfile env p).filled
        = ((fillFormWithProfile env p).results.filter (fun r => r.success)).length ∧
    (fillFormWithProfile env p).filled ≤ (fillFormWithProfile env p).total ∧
    ((fillFormWithProfile env p).success = true ↔
      0 < (fillFormWithProfile env p).filled) ∧
    nextButtonScheduled env p = (fillFormWithProfile env p).success ∧
    (∀ (ps : List Profile) (respond : String → Bool) (pid : String)
      (ctx : ChainContext) (pr : Profile) (nid : String),
      findProfile ps pid = some pr → pid ∉ ctx.visited → ctx.depth < 10 →
      pr.nextProfileId = some nid →
      (respond pid = true →
        chainRun ps respond pid ctx
          = (pid :: (chainRun ps respond nid ⟨pid :: ctx.visited, ctx.depth + 1⟩).1,
              (chainRun ps respond nid ⟨pid :: ctx.visited, ctx.depth + 1⟩).2)) ∧
      (respond pid = false →
        chainRun ps respond pid ctx = ([pid], ChainOutcome.done))) := by
  refine ⟨rfl, ?_, rfl, rfl, ?_, ?_, rfl, ?_⟩
  · show (p.fields.map (fillResultOf env)).length = p.fields.length
    rw [List.length_map]
  · show ((p.fields.map (fillResultOf env)).filter (fun r => r.success)).length
        ≤ p.fields.length
    calc ((p.fields.map (fillResultOf env)).filter (fun r => r.success)).length
        ≤ (p.fields.map (fillResultOf env)).length := List.length_filter_le _ _
      _ = p.fields.length := List.length_map _ _
  · exact decide_eq_true_iff
  · intro ps respond pid ctx pr nid hfind hvis hdep hnext
    exact ⟨fun hresp =>
        chainRun_continue ps respond pid ctx pr nid hfind hvis hdep hnext hresp,
      fun hresp =>
        chainRun_stop ps respond pid ctx pr nid hfind hvis hdep hnext hresp⟩

/-- Witness for C10 at the demo environment and a one-profile chain whose
fill fails, so no successor is scheduled. -/
theorem c10_report_and_gating_witness :
    ((fillFormWithProfile demoEnv demoProfile).success = true) ∧
    chainRun [soloProfile] (fun _ => false) "A" ⟨[], 0⟩
        = (["A"], ChainOutcome.done) := by
  constructor
  · exact ((c10_report_and_gating demoEnv demoProfile).2.2.2.2.2.1).mpr (by decide)
  · exact (((c10_report_and_gating demoEnv demoProfile).2.2.2.2.2.2.2)
      [soloProfile] (fun _ => false) "A" ⟨[], 0⟩ soloProfile "B"
      rfl (by simp) (by show (0 : Nat) < 10; omega) rfl).2 rfl

/-! ## Message dispatch: no mutual-exclusion flag -/

/-- C9 counterexample: two consecutive fill requests are both executed in
full — each produces the complete one-field report — so the second request
is not dropped; the content script holds no fill-in-progress flag at all. -/
theorem c9_no_mutex_counterexample :
    handleMessages demoEnv
        [Request.fillFormAdvanced demoProfile, Request.fillFormAdvanced demoProfile]
      = [Response.report demoReport, Response.report demoReport] ∧
    demoReport.filled = 1 :=
  ⟨rfl, rfl⟩

/-- C9 amended: the message handler is stateless — every request gets a
response, and every fill request unconditionally runs the orchestrator over
all fields of its profile.  Mutual exclusion of fill bodies comes from the
single-threaded event loop, not from any flag, and nothing is dropped. -/
theorem c9_no_mutex_amended (env : FieldEnv) (reqs : List Request) :
    (handleMessages env reqs).length = reqs.length ∧
    ∀ p : Profile,
      handleMessage env (Request.fillFormAdvanced p)
          = Response.report (fillFormWithProfile env p) ∧
      (fillFormWithProfile env p).results.length = p.fields.length := by
  refine ⟨List.length_map _ _, fun p => ⟨rfl, ?_⟩⟩
  show (p.fields.map (fillResultOf env)).length = p.fields.length
  rw [List.length_map]

/-! ## Fuzzy matching: the threshold is strict -/

/-- C7 counterexample: at similarity exactly 80 (with unequal normalized
strings and no containment either way) `isFuzzyMatch` returns `false`,
refuting the claimed "true whenever similarity ≥ 80". -/
theorem c7_fuzzy_threshold_counterexample :
    isFuzzyMatch "abcde" "abcdx" = false ∧
    calculateSimilarity (normalizeFuzzy "abcde") (normalizeFuzzy "abcdx") = 80 ∧
    normalizeFuzzy "abcde" ≠ normalizeFuzzy "abcdx" ∧
    jsIncludes (normalizeFuzzy "abcde") (normalizeFuzzy "abcdx") = false ∧
    jsIncludes (normalizeFuzzy "abcdx") (normalizeFuzzy "abcde") = false := by
  decide

/-- C7 amended: `isFuzzyMatch a b` is true iff both inputs are non-empty and
(the normalized strings are equal, or one contains the other, or the
similarity of the normalized strings is strictly greater than 80). -/
theorem c7_fuzzy_characterization (a b : String) :
    isFuzzyMatch a b = isFuzzyMatchSpec a b := by
  by_cases ha : a = ""
  · simp [isFuzzyMatch, isFuzzyMatchSpec, ha]
  · by_cases hb : b = ""
    · simp [isFuzzyMatch, isFuzzyMatchSpec, ha, hb]
    · by_cases heq : normalizeFuzzy a = normalizeFuzzy b
      · simp [isFuzzyMatch, isFuzzyMatchSpec, ha, hb, heq]
      · cases hi1 : jsIncludes (normalizeFuzzy a) (normalizeFuzzy b) <;>
          cases hi2 : jsIncludes (normalizeFuzzy b) (normalizeFuzzy a) <;>
          simp [isFuzzyMatch, isFuzzyMatchSpec, ha, hb, heq, hi1, hi2]

/-! ## Text filling -/

/-- C3 counterexample: a FieldSpec of type `text` whose resolved element is
auto-detected as a date widget (its id contains `datepicker`) has its value
transformed by the date converter rather than written verbatim. -/
theorem c3_text_exact_counterexample :
    (fillFieldByType noopDom dateAutoElem
        ⟨"Birth date", "text", "3/5/2024", none⟩).1.value ≠ "3/5/2024" ∧
    (fillFieldByType noopDom dateAutoElem
        ⟨"Birth date", "text", "3/5/2024", none⟩).1.value = "03/05/2024" := by
  constructor
  · decide
  · decide

/-- C3 amended: for a FieldSpec of type `text` whose resolved element is not
auto-detected as a date widget, the filler writes the supplied value exactly
(no truncation or transformation) and reports success. -/
theorem c3_text_exact_amended (dom : DomOracle) (e : Elem) (cfg : FieldConfig)
    (hty : jsToLower cfg.fieldType = "text")
    (hnd : isDateField (jsToLower cfg.fieldType) e = false) :
    (fillFieldByType dom e cfg).1.value = cfg.value ∧
    (fillFieldByType dom e cfg).2 = true := by
  rw [hty] at hnd
  simp [fillFieldByType, hty, hnd, fillTextInput]

/-- Witness for C3 (amended) on a plain text input. -/
theorem c3_text_exact_amended_witness :
    (fillFieldByType noopDom plainElem ⟨"Email", "text", "a@b.com", none⟩).1.value
      = "a@b.com" :=
  (c3_text_exact_amended noopDom plainElem ⟨"Email", "text", "a@b.com", none⟩
    (by decide) (by decide)).1

/-! ## Date scenario: placeholder `(dd/mm/yyyy)` with value `3/5/2024` -/

/-- C4 counterexample: the written value is not `03/05/2024` — the ambiguous
`3/5/2024` is parsed month-first because its separator is a slash, and
re-serialized day-first. -/
theorem c4_ddmm_scenario_counterexample :
    (fillDateInput ddmmElem "3/5/2024").1.value ≠ "03/05/2024" := by
  decide

/-- C4 amended: the placeholder `(dd/mm/yyyy)` is detected as day-month-year,
and the value written for `3/5/2024` is `05/03/2024` (month-first parse of
the slash-separated ambiguous date, day-first rendering). -/
theorem c4_ddmm_scenario_amended :
    detectDateFormat "(dd/mm/yyyy)" = "dmy" ∧
    (fillDateInput ddmmElem "3/5/2024").1.value = "05/03/2024" ∧
    (fillDateInput ddmmElem "3/5/2024").2 = true := by
  refine ⟨by decide, by decide, rfl⟩

/-! ## Date parsing: structural lemmas -/

theorem string_mk_data (s : String) : (⟨s.data⟩ : String) = s := by
  cases s; rfl

theorem data_ne_nil (s : String) (h : s ≠ "") : s.data ≠ [] := by
  intro hc
  apply h
  cases s with
  | mk l =>
    simp only [String.data] at hc
    subst hc
    rfl

theorem digit_not_sep (c : Char) (hc : c.isDigit = true) : ¬ isDateSep c := by
  intro hsep
  rcases hsep with h | h | h <;> subst h <;> exact absurd hc (by decide)

theorem splitAux_sepfree_all (xs : List Char) :
    ∀ (acc : List Char), (∀ c ∈ acc, ¬ isDateSep c) →
      ∀ l ∈ splitAux xs acc, ∀ c ∈ l, ¬ isDateSep c := by
  induction xs with
  | nil =>
    intro acc hacc l hl c hc
    simp only [splitAux, List.mem_singleton] at hl
    subst hl
    exact hacc c (List.mem_reverse.mp hc)
  | cons x xs ih =>
    intro acc hacc l hl c hc
    by_cases hx : isDateSep x
    · simp only [splitAux, if_pos hx] at hl
      rcases List.mem_cons.mp hl with rfl | hl'
      · exact hacc c (List.mem_reverse.mp hc)
      · exact ih [] (by simp) l hl' c hc
    · simp only [splitAux, if_neg hx] at hl
      refine ih (x :: acc) ?_ l hl c hc
      intro a ha
      rcases List.mem_cons.mp ha with rfl | ha'
      · exact hx
      · exact hacc a ha'

theorem splitDateParts_mem (s p : String) (hp : p ∈ splitDateParts s) :
    p ≠ "" ∧ ∀ c ∈ p.data, ¬ isDateSep c := by
  unfold splitDateParts at hp
  rcases List.mem_map.mp hp with ⟨l, hl, hlp⟩
  rcases List.mem_filter.mp hl with ⟨hl', hne⟩
  subst hlp
  constructor
  · intro hc
    have : l = [] := by
      cases s' : l with
      | nil => rfl
      | cons a as => rw [s'] at hc; exact absurd (congrArg String.data hc) (by simp)
    rw [this] at hne
    simp at hne
  · intro c hc
    exact splitAux_sepfree_all s.data [] (by simp) l hl' c hc

theorem splitAux_no_sep (xs : List Char) :
    ∀ (acc : List Char), (∀ c ∈ xs, ¬ isDateSep c) →
      splitAux xs acc = [acc.reverse ++ xs] := by
  induction xs with
  | nil => intro acc _; simp [splitAux]
  | cons x xs ih =>
    intro acc h
    have hx : ¬ isDateSep x := h x (List.mem_cons_self _ _)
    simp only [splitAux, if_neg hx]
    rw [ih (x :: acc) (fun c hc => h c (List.mem_cons_of_mem _ hc))]
    simp

theorem splitAux_cut (xs : List Char) (s : Char) (rest : List Char) :
    ∀ (acc : List Char), (∀ c ∈ xs, ¬ isDateSep c) → isDateSep s →
      splitAux (xs ++ s :: rest) acc = (acc.reverse ++ xs) :: splitAux rest [] := by
  induction xs with
  | nil => intro acc _ hs; simp [splitAux, if_pos hs]
  | cons x xs ih =>
    intro acc h hs
    have hx : ¬ isDateSep x := h x (List.mem_cons_self _ _)
    show splitAux (x :: (xs ++ s :: rest)) acc = _
    simp only [splitAux, if_neg hx]
    rw [ih (x :: acc) (fun c hc => h c (List.mem_cons_of_mem _ hc)) hs]
    simp

theorem splitDateParts_slash (m d y : String)
    (hm : m ≠ "") (hd : d ≠ "") (hy : y ≠ "")
    (hmc : ∀ c ∈ m.data, ¬ isDateSep c) (hdc : ∀ c ∈ d.data, ¬ isDateSep c)
    (hyc : ∀ c ∈ y.data, ¬ isDateSep c) :
    splitDateParts (m ++ "/" ++ d ++ "/" ++ y) = [m, d, y] := by
  have hslash : isDateSep '/' := Or.inr (Or.inl rfl)
  have hdata : (m ++ "/" ++ d ++ "/" ++ y).data
      = m.data ++ '/' :: (d.data ++ '/' :: y.data) := by
    simp [String.data_append]
  unfold splitDateParts
  rw [hdata, splitAux_cut m.data '/' _ [] hmc hslash,
    splitAux_cut d.data '/' _ [] hdc hslash, splitAux_no_sep y.data [] hyc]
  have hm' : m.data.isEmpty = false := by
    simp [List.isEmpty_iff]; exact data_ne_nil m hm
  have hd' : d.data.isEmpty = false := by
    simp [List.isEmpty_iff]; exact data_ne_nil d hd
  have hy' : y.data.isEmpty = false := by
    simp [List.isEmpty_iff]; exact data_ne_nil y hy
  simp [hm', hd', hy', string_mk_data]

/-! ## Date parsing: component shape lemmas -/

theorem jsPadStart2_length (s : String) : 2 ≤ (jsPadStart2 s).length := by
  unfold jsPadStart2
  split
  · rename_i h
    rw [String.length_append]
    have : (⟨List.replicate (2 - s.length) '0'⟩ : String).length
        = 2 - s.length := by
      show (List.replicate (2 - s.length) '0').length = 2 - s.length
      rw [List.length_replicate]
    omega
  · omega

theorem jsPadStart2_ne_empty (s : String) : jsPadStart2 s ≠ "" := by
  intro hc
  have := jsPadStart2_length s
  rw [hc] at this
  simp at this

theorem jsPadStart2_sepfree (s : String) (h : ∀ c ∈ s.data, ¬ isDateSep c) :
    ∀ c ∈ (jsPadStart2 s).data, ¬ isDateSep c := by
  intro c hc
  unfold jsPadStart2 at hc
  split at hc
  · rw [String.data_append] at hc
    rcases List.mem_append.mp hc with hrep | hs
    · have : c = '0' := List.eq_of_mem_replicate hrep
      subst this
      intro hsep
      rcases hsep with h' | h' | h' <;> simp at h'
    · exact h c hs
  · exact h c hc

theorem jsPadStart2_of_le (s : String) (h : 2 ≤ s.length) : jsPadStart2 s = s := by
  unfold jsPadStart2
  rw [if_neg (by omega)]

theorem yearAdj_length_ne_two (year : String) : (yearAdj year).length ≠ 2 := by
  unfold yearAdj
  split
  · rename_i h
    rw [String.length_append]
    have : ("20" : String).length = 2 := rfl
    omega
  · assumption

theorem yearAdj_ne_empty (year : String) (h : year ≠ "") : yearAdj year ≠ "" := by
  unfold yearAdj
  split
  · intro hc
    have := congrArg String.length hc
    rw [String.length_append] at this
    have h2 : ("20" : String).length = 2 := rfl
    simp [h2] at this
  · exact h

theorem yearAdj_sepfree (year : String) (h : ∀ c ∈ year.data, ¬ isDateSep c) :
    ∀ c ∈ (yearAdj year).data, ¬ isDateSep c := by
  intro c hc
  unfold yearAdj at hc
  split at hc
  · rw [String.data_append] at hc
    rcases List.mem_append.mp hc with h20 | hy
    · have : c = '2' ∨ c = '0' := by
        simpa using h20
      rcases this with rfl | rfl <;>
        · intro hsep; rcases hsep with h' | h' | h' <;> simp at h'
    · exact h c hy
  · exact h c hc

theorem yearAdj_of_ne_two (s : String) (h : s.length ≠ 2) : yearAdj s = s := by
  unfold yearAdj
  rw [if_neg h]

theorem jsSubstring_mem (s : String) (a b : Nat) (c : Char)
    (hc : c ∈ (jsSubstring s a b).data) : c ∈ s.data := by
  unfold jsSubstring at hc
  simp only [String.data] at hc
  exact List.mem_of_mem_drop (List.mem_of_mem_take hc)

theorem jsSubstring_length (s : String) (a b : Nat) :
    (jsSubstring s a b).length = min (b - a) (s.length - a) := by
  show ((s.data.drop a).take (b - a)).length = min (b - a) (s.length - a)
  rw [List.length_take, List.length_drop]
  rfl

/-- Shape facts about `parseDMY` output: day and month are non-empty,
separator-free and at least two characters long; the year is non-empty and
separator-free. -/
theorem parseDMY_components (dv day month year : String)
    (h : parseDMY dv = some (day, month, year)) :
    day ≠ "" ∧ 2 ≤ day.length ∧ (∀ c ∈ day.data, ¬ isDateSep c) ∧
    month ≠ "" ∧ 2 ≤ month.length ∧ (∀ c ∈ month.data, ¬ isDateSep c) ∧
    year ≠ "" ∧ (∀ c ∈ year.data, ¬ isDateSep c) := by
  unfold parseDMY at h
  by_cases hcs : containsSep dv
  · rw [if_pos hcs] at h
    cases hsp : splitDateParts dv with
    | nil => rw [hsp] at h; simp at h
    | cons p0 t0 =>
      cases t0 with
      | nil => rw [hsp] at h; simp at h
      | cons p1 t1 =>
        cases t1 with
        | nil => rw [hsp] at h; simp at h
        | cons p2 t2 =>
          cases t2 with
          | cons p3 t3 => rw [hsp] at h; simp at h
          | nil =>
            rw [hsp] at h
            have h0 := splitDateParts_mem dv p0 (by rw [hsp]; simp)
            have h1 := splitDateParts_mem dv p1 (by rw [hsp]; simp)
            have h2 := splitDateParts_mem dv p2 (by rw [hsp]; simp)
            have h' : (if partGT12 p0 = true then
                  some (jsPadStart2 p0, jsPadStart2 p1, p2)
                else if partGT12 p1 = true then
                  some (jsPadStart2 p1, jsPadStart2 p0, p2)
                else if '.' ∈ dv.data then
                  some (jsPadStart2 p0, jsPadStart2 p1, p2)
                else some (jsPadStart2 p1, jsPadStart2 p0, p2))
                  = some (day, month, year) := h
            clear h
            split at h' <;> [skip; split at h'] <;> [skip; skip; split at h'] <;>
              · simp only [Option.some.injEq, Prod.mk.injEq] at h'
                obtain ⟨hdq, hmq, hyq⟩ := h'
                subst hdq; subst hmq; subst hyq
                refine ⟨jsPadStart2_ne_empty _, jsPadStart2_length _,
                  jsPadStart2_sepfree _ ?_, jsPadStart2_ne_empty _,
                  jsPadStart2_length _, jsPadStart2_sepfree _ ?_, ?_, ?_⟩ <;>
                  first
                    | exact h0.2
                    | exact h1.2
                    | exact h2.1
                    | exact h2.2
  · rw [if_neg hcs] at h
    set cd : String := (⟨dv.data.filter Char.isDigit⟩ : String) with hcd
    have hdig : ∀ c ∈ cd.data, ¬ isDateSep c := by
      intro c hc
      rw [hcd] at hc
      simp only [String.data] at hc
      exact digit_not_sep c (List.of_mem_filter hc)
    have hsub_ne : ∀ a b : Nat, a < b → b ≤ cd.length → jsSubstring cd a b ≠ "" := by
      intro a b hab hb hc
      have := congrArg String.length hc
      rw [jsSubstring_length] at this
      simp at this
      omega
    have hsub_le : ∀ a b : Nat, a + 2 ≤ b → b ≤ cd.length →
        2 ≤ (jsSubstring cd a b).length := by
      intro a b hab hb
      rw [jsSubstring_length]
      omega
    split at h
    · rename_i h8
      simp only [Option.some.injEq, Prod.mk.injEq] at h
      obtain ⟨hdq, hmq, hyq⟩ := h
      subst hdq; subst hmq; subst hyq
      exact ⟨hsub_ne 0 2 (by omega) (by omega), hsub_le 0 2 (by omega) (by omega),
        fun c hc => hdig c (jsSubstring_mem _ _ _ c hc),
        hsub_ne 2 4 (by omega) (by omega), hsub_le 2 4 (by omega) (by omega),
        fun c hc => hdig c (jsSubstring_mem _ _ _ c hc),
        hsub_ne 4 8 (by omega) (by omega),
        fun c hc => hdig c (jsSubstring_mem _ _ _ c hc)⟩
    · split at h
      · rename_i h6
        simp only [Option.some.injEq, Prod.mk.injEq] at h
        obtain ⟨hdq, hmq, hyq⟩ := h
        subst hdq; subst hmq; subst hyq
        refine ⟨hsub_ne 0 2 (by omega) (by omega), hsub_le 0 2 (by omega) (by omega),
          fun c hc => hdig c (jsSubstring_mem _ _ _ c hc),
          hsub_ne 2 4 (by omega) (by omega), hsub_le 2 4 (by omega) (by omega),
          fun c hc => hdig c (jsSubstring_mem _ _ _ c hc), ?_, ?_⟩
        · intro hc
          have := congrArg String.length hc
          rw [String.length_append] at this
          have h2 : ("20" : String).length = 2 := rfl
          simp [h2] at this
        · intro c hc
          rw [String.data_append] at hc
          rcases List.mem_append.mp hc with h20 | hy'
          · have : c = '2' ∨ c = '0' := by simpa using h20
            rcases this with rfl | rfl <;>
              · intro hsep; rcases hsep with h' | h' | h' <;> simp at h'
          · exact hdig c (jsSubstring_mem _ _ _ c hy')
      · exact absurd h (by simp)

/-! ## Date conversion: emptiness characterization and idempotence -/

theorem assembled_ne_empty (a sep1 b sep2 c : String) (h : sep1 ≠ "") :
    a ++ sep1 ++ b ++ sep2 ++ c ≠ "" := by
  intro hc
  have hlen := congrArg String.length hc
  simp only [String.length_append] at hlen
  have h0 : ("" : String).length = 0 := rfl
  rw [h0] at hlen
  have hs : sep1.length ≠ 0 := by
    intro hz
    apply h
    cases sep1 with
    | mk l =>
      have : l.length = 0 := hz
      rw [List.length_eq_zero.mp this]
  omega

theorem parseDMY_none_iff (dv : String) :
    parseDMY dv = none ↔
      (containsSep dv ∧ (splitDateParts dv).length ≠ 3) ∨
      (¬ containsSep dv ∧ (dv.data.filter Char.isDigit).length ≠ 8 ∧
        (dv.data.filter Char.isDigit).length ≠ 6) := by
  unfold parseDMY
  by_cases hcs : containsSep dv
  · rw [if_pos hcs]
    cases hsp : splitDateParts dv with
    | nil => simp [hcs, hsp]
    | cons p0 t0 =>
      cases t0 with
      | nil => simp [hcs, hsp]
      | cons p1 t1 =>
        cases t1 with
        | nil => simp [hcs, hsp]
        | cons p2 t2 =>
          cases t2 with
          | cons p3 t3 => simp [hcs, hsp]
          | nil =>
            constructor
            · intro hnone
              exfalso
              have h' : (if partGT12 p0 = true then
                    some (jsPadStart2 p0, jsPadStart2 p1, p2)
                  else if partGT12 p1 = true then
                    some (jsPadStart2 p1, jsPadStart2 p0, p2)
                  else if '.' ∈ dv.data then
                    some (jsPadStart2 p0, jsPadStart2 p1, p2)
                  else some (jsPadStart2 p1, jsPadStart2 p0, p2))
                    = none := hnone
              by_cases hg0 : partGT12 p0 = true
              · rw [if_pos hg0] at h'; exact absurd h' (by simp)
              · rw [if_neg hg0] at h'
                by_cases hg1 : partGT12 p1 = true
                · rw [if_pos hg1] at h'; exact absurd h' (by simp)
                · rw [if_neg hg1] at h'
                  by_cases hdot : '.' ∈ dv.data
                  · rw [if_pos hdot] at h'; exact absurd h' (by simp)
                  · rw [if_neg hdot] at h'; exact absurd h' (by simp)
            · intro hr
              rcases hr with ⟨_, hlen⟩ | ⟨hnc, _⟩
              · simp at hlen
              · exact absurd hcs hnc
  · rw [if_neg hcs]
    have hlen : (⟨dv.data.filter Char.isDigit⟩ : String).length
        = (dv.data.filter Char.isDigit).length := rfl
    by_cases h8 : (dv.data.filter Char.isDigit).length = 8
    · rw [if_pos (by rw [hlen]; exact h8)]
      simp [hcs, h8]
    · rw [if_neg (by rw [hlen]; exact h8)]
      by_cases h6 : (dv.data.filter Char.isDigit).length = 6
      · rw [if_pos (by rw [hlen]; exact h6)]
        simp [hcs, h8, h6]
      · rw [if_neg (by rw [hlen]; exact h6)]
        simp [hcs, h8, h6]

/-- C6 counterexample: non-numeric parts are not rejected — the claimed
"empty result for a non-numeric part" fails: `a/b/c` splits into 3 parts,
`parseInt` yields `NaN` on each, yet the converter assembles `0a/0b/c`. -/
theorem c6_nonnumeric_counterexample :
    formatDateForInput "a/b/c" "mdy" = "0a/0b/c" ∧
    formatDateForInput "a/b/c" "mdy" ≠ "" ∧
    (splitDateParts "a/b/c").length = 3 ∧
    jsParseInt "a" = none := by
  decide

/-- C6 amended: the converter returns the empty string exactly for the empty
input, a separator-containing input whose filtered split does not have
exactly 3 parts, or a separator-free input whose digit count is neither 8
nor 6.  Non-numeric parts inside a 3-part split are not detected: they are
zero-padded and reassembled into a non-empty result. -/
theorem c6_empty_result_characterization (d f : String) :
    formatDateForInput d f = "" ↔
      (d = "" ∨
        (containsSep d ∧ (splitDateParts d).length ≠ 3) ∨
        (¬ containsSep d ∧ (d.data.filter Char.isDigit).length ≠ 8 ∧
          (d.data.filter Char.isDigit).length ≠ 6)) := by
  by_cases hd : d = ""
  · simp [formatDateForInput, hd]
  · rw [show formatDateForInput d f
        = (match parseDMY d with
           | none => ""
           | some (day, month, year0) =>
             let year := yearAdj year0
             match f with
             | "mdy" => month ++ "/" ++ day ++ "/" ++ year
             | "dmy" => day ++ "/" ++ month ++ "/" ++ year
             | "ymd" => year ++ "/" ++ month ++ "/" ++ day
             | "dmy_dot" => day ++ "." ++ month ++ "." ++ year
             | "dmy_dash" => day ++ "-" ++ month ++ "-" ++ year
             | _ => month ++ "/" ++ day ++ "/" ++ year) from by
      unfold formatDateForInput; rw [if_neg hd]]
    cases hp : parseDMY d with
    | none =>
      constructor
      · intro _
        exact Or.inr ((parseDMY_none_iff d).mp hp)
      · intro _
        rfl
    | some t =>
      obtain ⟨day, month, year⟩ := t
      constructor
      · intro hassembled
        exfalso
        dsimp only at hassembled
        split at hassembled <;>
          exact absurd hassembled (assembled_ne_empty _ _ _ _ _ (by decide))
      · intro hr
        rcases hr with h | h
        · exact absurd h hd
        · exact absurd ((parseDMY_none_iff d).mpr h) (by simp [hp])

/-- Witness for C6 (amended) at `1/2` (two parts only). -/
theorem c6_empty_result_characterization_witness :
    formatDateForInput "1/2" "mdy" = "" :=
  (c6_empty_result_characterization "1/2" "mdy").mpr
    (Or.inr (Or.inl ⟨by decide, by decide⟩))

/-- C5 counterexample: re-converting the converted date is not idempotent:
`3/5/2024` converted to day-month-year gives `05/03/2024`, which re-converts
to `03/05/2024` (the ambiguous slash date is parsed month-first but rendered
day-first, so each pass swaps the two fields). -/
theorem c5_idempotence_counterexample :
    formatDateForInput (formatDateForInput "3/5/2024" "dmy") "dmy"
        ≠ formatDateForInput "3/5/2024" "dmy" ∧
    formatDateForInput "3/5/2024" "dmy" = "05/03/2024" ∧
    formatDateForInput (formatDateForInput "3/5/2024" "dmy") "dmy"
        = "03/05/2024" := by
  decide

/-- C5 amended: conversion to the month-day-year target is idempotent for
every input whose parsed month component does not exceed 12 (in particular
for every real calendar date); for the day-first slash and dash formats a
second conversion swaps day and month whenever both are at most 12. -/
theorem c5_mdy_idempotent (d : String)
    (h : ∀ day month year, parseDMY d = some (day, month, year) →
      partGT12 month = false) :
    formatDateForInput (formatDateForInput d "mdy") "mdy"
      = formatDateForInput d "mdy" := by
  by_cases hd : d = ""
  · simp [formatDateForInput, hd]
  · cases hp : parseDMY d with
    | none => simp [formatDateForInput, hd, hp]
    | some t =>
      obtain ⟨day, month, year⟩ := t
      have hgt := h day month year hp
      obtain ⟨hdne, hdlen, hdsep, hmne, hmlen, hmsep, hyne, hysep⟩ :=
        parseDMY_components d day month year hp
      have hinner : formatDateForInput d "mdy"
          = month ++ "/" ++ day ++ "/" ++ yearAdj year := by
        unfold formatDateForInput
        rw [if_neg hd, hp]
        rfl
      rw [hinner]
      clear hinner
      have hYne : yearAdj year ≠ "" := yearAdj_ne_empty year hyne
      have hYsep : ∀ c ∈ (yearAdj year).data, ¬ isDateSep c :=
        yearAdj_sepfree year hysep
      have hYlen : (yearAdj year).length ≠ 2 := yearAdj_length_ne_two year
      have hne : month ++ "/" ++ day ++ "/" ++ yearAdj year ≠ "" :=
        assembled_ne_empty _ _ _ _ _ (by decide)
      have hsep : containsSep (month ++ "/" ++ day ++ "/" ++ yearAdj year) := by
        right; left
        simp [String.data_append]
      have hsplit : splitDateParts (month ++ "/" ++ day ++ "/" ++ yearAdj year)
          = [month, day, yearAdj year] :=
        splitDateParts_slash month day (yearAdj year) hmne hdne hYne hmsep hdsep hYsep
      have hnodot : ¬ ('.' ∈ (month ++ "/" ++ day ++ "/" ++ yearAdj year).data) := by
        simp only [String.data_append]
        intro hc
        rcases List.mem_append.mp hc with hc' | hc'
        · rcases List.mem_append.mp hc' with hc'' | hc''
          · rcases List.mem_append.mp hc'' with hc3 | hc3
            · rcases List.mem_append.mp hc3 with hc4 | hc4
              · exact hmsep '.' hc4 (Or.inl rfl)
              · simp at hc4
            · exact hdsep '.' hc3 (Or.inl rfl)
          · simp at hc''
        · exact hYsep '.' hc' (Or.inl rfl)
      have hparse2 : parseDMY (month ++ "/" ++ day ++ "/" ++ yearAdj year)
          = some (jsPadStart2 day, jsPadStart2 month, yearAdj year) := by
        unfold parseDMY
        rw [if_pos hsep, hsplit]
        simp only [hgt, Bool.false_eq_true, if_false]
        by_cases hgd : partGT12 day
        · rw [if_pos hgd]
        · rw [if_neg hgd, if_neg hnodot]
      unfold formatDateForInput
      rw [if_neg hne, hparse2]
      dsimp only
      rw [jsPadStart2_of_le day hdlen, jsPadStart2_of_le month hmlen,
        yearAdj_of_ne_two (yearAdj year) hYlen]
      rfl

/-- Witness for C5 (amended) at `25.12.2023` (month `12`). -/
theorem c5_mdy_idempotent_witness :
    formatDateForInput (formatDateForInput "25.12.2023" "mdy") "mdy"
      = formatDateForInput "25.12.2023" "mdy" := by
  apply c5_mdy_idempotent
  intro day month year hp
  have hval : parseDMY "25.12.2023" = some ("25", "12", "2023") := by decide
  rw [hval] at hp
  simp only [Option.some.injEq, Prod.mk.injEq] at hp
  obtain ⟨h1, h2, h3⟩ := hp
  rw [← h2]
  decide

end AutoFill
